import Mathlib

/-!
Shallow embedding of `backend/server.js` (Kruminas/Book): the translation
proxy endpoint `/api/translate` and the catalog generator endpoint
`/api/books`, together with proofs of the behavioural properties stated in
the specification.

JavaScript numbers are modelled exactly as `Option JNum` where `none` stands
for `NaN` (the only non-finite value these handlers can produce) and `JNum`
is a gcd-normalized fraction of integers with positive denominator; all
comparisons with `NaN` are false and all arithmetic on `NaN` yields `NaN`,
exactly as in JS.  External collaborators (the upstream translation API, the
seeded faker generator, `Math.random`, `uuidv4`) are modelled as explicit
oracle parameters, so that every run of a handler is a pure function of the
request, the cache state and the oracles.
-/

/-! ### Exact JS number semantics -/

/-- An exact rational `n / d`.  Every value built by the embedding has
`0 < d` and `gcd n d = 1`, so structural equality coincides with value
equality on all constructed numbers. -/
structure JNum where
  n : ℤ
  d : ℤ
deriving DecidableEq, Repr

/-- Rational value of a `JNum`. -/
def JNum.toRat (a : JNum) : ℚ := (a.n : ℚ) / (a.d : ℚ)

/-- Reduce a fraction by the gcd of its components. -/
def JNum.norm (a : JNum) : JNum :=
  let g : ℤ := (Int.gcd a.n a.d : ℤ)
  if g = 0 then a else ⟨a.n / g, a.d / g⟩

def JNum.ofInt (k : ℤ) : JNum := ⟨k, 1⟩

def JNum.add (a b : JNum) : JNum := JNum.norm ⟨a.n * b.d + b.n * a.d, a.d * b.d⟩

def JNum.sub (a b : JNum) : JNum := JNum.norm ⟨a.n * b.d - b.n * a.d, a.d * b.d⟩

def JNum.mul (a b : JNum) : JNum := JNum.norm ⟨a.n * b.n, a.d * b.d⟩

/-- Value comparison `a < b`, correct whenever both denominators are
positive. -/
def JNum.lt (a b : JNum) : Bool := decide (a.n * b.d < b.n * a.d)

/-- `Math.floor` of `n / d` as an integer, for positive `d`. -/
def JNum.floorInt (a : JNum) : ℤ := a.n.fdiv a.d

def JNum.floor (a : JNum) : JNum := ⟨a.floorInt, 1⟩

/-- JS `a < b` on possibly-NaN numbers: any comparison involving NaN is
false. -/
def jsLt : Option JNum → Option JNum → Bool
  | some a, some b => a.lt b
  | _, _ => false

/-- JS `Math.max(a, b)`: NaN-propagating maximum. -/
def jsMax : Option JNum → Option JNum → Option JNum
  | some a, some b => some (if a.lt b then b else a)
  | _, _ => none

/-- JS `Math.floor`, NaN-propagating. -/
def jsFloor : Option JNum → Option JNum
  | some a => some a.floor
  | none => none

/-- JS subtraction, NaN-propagating. -/
def jsSub : Option JNum → Option JNum → Option JNum
  | some a, some b => some (a.sub b)
  | _, _ => none

/-- JS addition, NaN-propagating. -/
def jsAdd : Option JNum → Option JNum → Option JNum
  | some a, some b => some (a.add b)
  | _, _ => none

/-- JS multiplication, NaN-propagating. -/
def jsMul : Option JNum → Option JNum → Option JNum
  | some a, some b => some (a.mul b)
  | _, _ => none

/-- Rendering of a JS number in a template string.  The handlers only ever
interpolate integers (from `parseInt`) or NaN. -/
def jsNumToString : Option JNum → String
  | some a => if a.d = 1 then toString a.n else toString a.n ++ "/" ++ toString a.d
  | none => "NaN"

/-- Decimal value of a list of digit characters. -/
def digitsVal (l : List Char) : ℤ :=
  (l.foldl (fun acc c => acc * 10 + (c.toNat - '0'.toNat)) (0 : ℕ) : ℤ)

/-- The characters JS strips before parsing a numeric string: the ECMAScript
WhiteSpace set (TAB, VT, FF, SP, NBSP, ZWNBSP and the Unicode
space-separator category) and the line terminators. -/
def isJsWhitespace (c : Char) : Bool :=
  c == ' ' || c == '\t' || c == '\n' || c == '\r' || c == '\x0b' || c == '\x0c' ||
    c == '\u00a0' || c == '\ufeff' || c == '\u1680' ||
    ('\u2000' ≤ c && c ≤ '\u200a') || c == '\u2028' || c == '\u2029' ||
    c == '\u202f' || c == '\u205f' || c == '\u3000'

/-- Leading sign of a numeric literal: the sign factor and the remaining
characters. -/
def signSplit : List Char → ℤ × List Char
  | '-' :: cs => (-1, cs)
  | '+' :: cs => (1, cs)
  | cs => (1, cs)

/-- `parseInt(s, 10)`: after optional whitespace, an optional sign followed
by the longest decimal-digit prefix; `none` (NaN) when no digit is found. -/
def jsParseInt (s : String) : Option JNum :=
  let sr := signSplit (s.data.dropWhile isJsWhitespace)
  let digits := sr.2.takeWhile (fun c => c.isDigit)
  if digits.isEmpty then none
  else some ⟨sr.1 * digitsVal digits, 1⟩

/-- The longest decimal-mantissa prefix, per the `StrDecimalLiteral` grammar
`parseFloat` uses: `digits [. digits?]` or `. digits`.  Returns the value as
(numerator, positive power-of-ten denominator) together with the remaining
characters; `none` when no digit is found. -/
def mantissaSplit (l : List Char) : Option (ℤ × ℤ × List Char) :=
  let intDigits := l.takeWhile (fun c => c.isDigit)
  let rest2 := l.drop intDigits.length
  match rest2 with
  | '.' :: cs =>
    let fracDigits := cs.takeWhile (fun c => c.isDigit)
    if intDigits.isEmpty && fracDigits.isEmpty then none
    else
      some (digitsVal intDigits * 10 ^ fracDigits.length + digitsVal fracDigits,
        10 ^ fracDigits.length, cs.drop fracDigits.length)
  | _ =>
    if intDigits.isEmpty then none
    else some (digitsVal intDigits, 1, rest2)

/-- The optional `e`/`E` exponent part following a mantissa: its signed
value, or 0 when absent or incomplete (JS then keeps only the mantissa
prefix). -/
def expPart (l : List Char) : ℤ :=
  match l with
  | 'e' :: rest | 'E' :: rest =>
    let er := signSplit rest
    let eds := er.2.takeWhile (fun c => c.isDigit)
    if eds.isEmpty then 0 else er.1 * digitsVal eds
  | _ => 0

/-- Scale a mantissa `num / den` by `10 ^ e`. -/
def applyExp (num den e : ℤ) : JNum :=
  if 0 ≤ e then JNum.norm ⟨num * 10 ^ e.toNat, den⟩
  else JNum.norm ⟨num, den * 10 ^ (-e).toNat⟩

/-- `parseFloat(s)`: after optional whitespace, an optional sign, then the
longest `digits [. digits?]` or `. digits` mantissa with an optional `e`/`E`
exponent; `none` (NaN) when no digit is found.  The one JS value outside the
model is the literal `"Infinity"` (no infinite `JNum` exists; on such a
reviews average the real review loop never terminates) — those inputs are
excluded from the theorems that depend on the reviews parameter via
`isInfinityInput`. -/
def jsParseFloat (s : String) : Option JNum :=
  let sr := signSplit (s.data.dropWhile isJsWhitespace)
  match mantissaSplit sr.2 with
  | none => none
  | some m => some (applyExp (sr.1 * m.1) m.2.1 (expPart m.2.2))

/-- Wrap an integer into the signed 32-bit range, as JS `| 0` does. -/
def toInt32 (n : ℤ) : ℤ := ((n + 2 ^ 31) % 2 ^ 32) - 2 ^ 31

/-- `hashCode(str)` from `server.js` lines 30-36:
`hash = (Math.imul(31, hash) + str.charCodeAt(i)) | 0` over the characters. -/
def hashCode (s : String) : ℤ :=
  s.data.foldl (fun h c => toInt32 (toInt32 (31 * h) + (c.toNat : ℤ))) 0

/-- `fractionalValue(avg)` from `server.js` lines 38-46, with the
`Math.random()` draw `r` passed in explicitly. -/
def fractionalValue (avg : Option JNum) (r : JNum) : Option JNum :=
  let intPart := jsFloor avg
  let fraction := jsSub avg intPart
  if jsLt (some r) fraction then jsAdd intPart (some (JNum.ofInt 1)) else intPart

/-! ### Translation cache (node-cache with `stdTTL: 86400`) -/

structure CacheEntry where
  key : String
  val : String
  expiresAt : ℕ
deriving DecidableEq, Repr

/-- `translationCache.get(k)` at time `now`: an expired entry behaves as
absent. -/
def cacheGet (c : List CacheEntry) (now : ℕ) (k : String) : Option String :=
  match c.find? (fun e => e.key == k) with
  | some e => if now < e.expiresAt then some e.val else none
  | none => none

/-- `translationCache.set(k, v)` at time `now`: replaces any previous entry
for `k` and stamps the standard TTL of 86400 seconds. -/
def cacheSet (c : List CacheEntry) (now : ℕ) (k v : String) : List CacheEntry :=
  ⟨k, v, now + 86400⟩ :: c.filter (fun e => ¬(e.key == k))

/-! ### The `/api/translate` handler -/

/-- A JS value that may appear in the request body field `q`. -/
inductive JsVal where
  | str : String → JsVal
  | num : JNum → JsVal
  | arr : List String → JsVal
deriving DecidableEq, Repr

/-- JS truthiness of a possibly-absent body field holding a `JsVal`:
`undefined`, `""`, and `0` are falsy; every array (even `[]`) is truthy. -/
def truthyVal : Option JsVal → Bool
  | none => false
  | some (.str s) => s ≠ ""
  | some (.num q) => q.n ≠ 0
  | some (.arr _) => true

/-- JS truthiness of a possibly-absent string field. -/
def truthyStr : Option String → Bool
  | none => false
  | some s => s ≠ ""

/-- Request body of `/api/translate`. -/
structure TranslateReq where
  q : Option JsVal
  source : Option String
  target : Option String
deriving DecidableEq, Repr

/-- One upstream response from the MyMemory API, classified by payload
shape: `ok t` means `response.data.responseData.translatedText` exists and
equals `t`; `malformed` means the expected shape is absent. -/
inductive UpstreamResp where
  | ok : String → UpstreamResp
  | malformed : UpstreamResp
deriving DecidableEq, Repr

/-- Outcome of one `/api/translate` request. -/
inductive HandlerResult where
  | badRequest
  | serverError
  | okSingle : Option String → HandlerResult
  | okList : List (Option String) → HandlerResult
deriving DecidableEq, Repr

/-- Result of running the translate handler: the HTTP-level result, the cache
state afterwards, and the list of texts for which an upstream call was
issued. -/
structure TranslateOut where
  result : HandlerResult
  cache : List CacheEntry
  fetched : List String
deriving DecidableEq, Repr

/-- The `responses.map` callback of `server.js` lines 85-91.  When the
payload shape check fails the code executes `return text;`, but `text` is not
in scope there, so the callback throws a `ReferenceError`, aborting the whole
map (modelled by `none`). -/
def extractTranslations : List UpstreamResp → Option (List String)
  | [] => some []
  | .ok t :: rest =>
    if t = "" then none
    else (extractTranslations rest).map (fun l => t :: l)
  | .malformed :: _ => none

/-- The cache key built at `server.js` line 59. -/
def cacheKey (source target text : String) : String :=
  source ++ "-" ++ target ++ "-" ++ text

/-- The string a JS template puts in place of a `JsVal`. -/
def jsValToString : JsVal → String
  | .str s => s
  | .num q => jsNumToString (some q)
  | .arr l => String.intercalate "," l

/-- The cache/partition/fetch/overlay pipeline of the `/api/translate`
handler (`server.js` lines 59-103), for an already-validated list of texts:
returns the final translation slots (`none` of the outer `Option` when the
`responses.map` callback threw), the cache state afterwards, and the list of
texts fetched upstream. -/
def translateCore (cache : List CacheEntry) (now : ℕ)
    (oracle : String → UpstreamResp) (source target : String)
    (textsToTranslate : List String) :
    Option (List (Option String)) × List CacheEntry × List String :=
  let cacheKeys := textsToTranslate.map (fun t => cacheKey source target t)
  let cachedTranslations := cacheKeys.map (fun k => cacheGet cache now k)
  let missPairs :=
    ((cachedTranslations.zip textsToTranslate).enum.filter
      (fun p => p.2.1 = none)).map (fun p => (p.1, p.2.2))
  let indexesToFetch := missPairs.map (fun p => p.1)
  let textsToFetch := missPairs.map (fun p => p.2)
  let responses := textsToFetch.map oracle
  match extractTranslations responses with
  | none => (none, cache, textsToFetch)
  | some fetchedTranslations =>
    let cache2 :=
      (fetchedTranslations.zip indexesToFetch).foldl
        (fun c p => cacheSet c now (cacheKeys.getD p.2 "") p.1) cache
    let finalTranslations :=
      (indexesToFetch.zip fetchedTranslations).foldl
        (fun acc p => acc.set p.1 (some p.2)) cachedTranslations
    (some finalTranslations, cache2, textsToFetch)

/-- The `/api/translate` handler (`server.js` lines 48-113).  `cache` is the
state of `translationCache`, `now` the request time in seconds, and `oracle`
maps each upstream-fetched text to the shape of the response payload. -/
def translateHandler (cache : List CacheEntry) (now : ℕ)
    (oracle : String → UpstreamResp) (req : TranslateReq) : TranslateOut :=
  if ¬(truthyVal req.q && truthyStr req.source && truthyStr req.target) then
    ⟨.badRequest, cache, []⟩
  else
    let qv := req.q.getD (.str "")
    let source := req.source.getD ""
    let target := req.target.getD ""
    let isArray : Bool := match qv with | .arr _ => true | _ => false
    let textsToTranslate : List String :=
      match qv with
      | .arr l => l
      | v => [jsValToString v]
    let core := translateCore cache now oracle source target textsToTranslate
    match core.1 with
    | none => ⟨.serverError, core.2.1, core.2.2⟩
    | some finalTranslations =>
      if ¬isArray then
        ⟨.okSingle (finalTranslations.getD 0 none), core.2.1, core.2.2⟩
      else
        ⟨.okList finalTranslations, core.2.1, core.2.2⟩

/-! ### The `/api/books` handler -/

/-- `getFakerLocale(region)` from `server.js` lines 17-28. -/
def getFakerLocale (region : String) : String :=
  match region with
  | "en" => "en_US"
  | "fr" => "fr"
  | "de" => "de"
  | _ => "en_US"

/-- State of the seeded faker generator: the active locale, the numeric seed
set by `faker.seed(...)`, and the position in the pseudo-random stream.
Each generator call consumes one position.  The concrete strings faker
produces are opaque; we model each draw as a string determined exactly by
(generator kind, locale, seed, position), which captures faker's contract
that a seeded stream is reproducible and position-dependent. -/
structure FakerState where
  locale : String
  seed : ℤ
  pos : ℕ
deriving DecidableEq, Repr

/-- One draw from the seeded faker stream. -/
def fakerDraw (kind : String) (st : FakerState) : String × FakerState :=
  (kind ++ ":" ++ st.locale ++ ":" ++ toString st.seed ++ ":" ++ toString st.pos,
    ⟨st.locale, st.seed, st.pos + 1⟩)

/-- A nested review of a `Book`. -/
structure Review where
  author : String
  text : String
deriving DecidableEq, Repr

/-- One record of the generated catalog page. -/
structure Book where
  id : String
  index : Option JNum
  isbn : String
  title : String
  author : String
  publisher : String
  likes : Option JNum
  reviews : List Review
  coverImageUrl : String
deriving DecidableEq, Repr

/-- Oracles for the two unseeded random sources used by `/api/books`:
`Math.random()` draws (indexed by draw counter) and `uuidv4()` results
(indexed by call counter). -/
structure BooksEnv where
  rand : ℕ → JNum
  uuid : ℕ → String

/-- `Math.random()` contract: every draw is a number in `[0, 1)`. -/
def randValid (env : BooksEnv) : Prop :=
  ∀ k, 0 < (env.rand k).d ∧ 0 ≤ (env.rand k).n ∧ (env.rand k).n < (env.rand k).d

/-- Iteration count of the JS loop `for (let r = 0; r < bound; r++)`:
zero when `bound` is NaN or non-positive, else the ceiling of `bound`. -/
def jsLoopCount : Option JNum → ℕ
  | none => 0
  | some a => (-((-a.n).fdiv a.d)).toNat

/-- The review loop of `server.js` lines 145-158: each iteration draws a
reviewer name and a paragraph from the faker stream and skips the push if
either is empty. -/
def genReviews (st : FakerState) : ℕ → List Review × FakerState
  | 0 => ([], st)
  | n + 1 =>
    let reviewAuthor := (fakerDraw "fullName" st).1
    let st1 := (fakerDraw "fullName" st).2
    let reviewText := (fakerDraw "paragraph" st1).1
    let st2 := (fakerDraw "paragraph" st1).2
    let rest := genReviews st2 n
    if reviewAuthor = "" ∨ reviewText = "" then rest
    else (⟨reviewAuthor, reviewText⟩ :: rest.1, rest.2)

/-- The page-relative index `(i + 1) + (pageNum - 1) * 20` computed at
`server.js` line 163, in JS number semantics. -/
def bookIndexFormula (i : ℕ) (pageNum : Option JNum) : Option JNum :=
  jsAdd (some (JNum.ofInt ((i : ℤ) + 1)))
    (jsMul (jsSub pageNum (some (JNum.ofInt 1))) (some (JNum.ofInt 20)))

/-- The body of the books loop (`server.js` lines 138-180) for book `i`,
threading the faker state and the `Math.random` / `uuidv4` counters. -/
def genBook (env : BooksEnv) (avgLikes avgReviews pageNum : Option JNum) (i : ℕ)
    (st : FakerState) (randCtr uuidCtr : ℕ) : Book × FakerState × ℕ × ℕ :=
  let title := (fakerDraw "sentence" st).1
  let st1 := (fakerDraw "sentence" st).2
  let author := (fakerDraw "fullName" st1).1
  let st2 := (fakerDraw "fullName" st1).2
  let publisher := (fakerDraw "companyName" st2).1
  let st3 := (fakerDraw "companyName" st2).2
  let numLikes := fractionalValue avgLikes (env.rand randCtr)
  let numReviews := fractionalValue avgReviews (env.rand (randCtr + 1))
  let bookReviews := (genReviews st3 (jsLoopCount numReviews)).1
  let st4 := (genReviews st3 (jsLoopCount numReviews)).2
  let isbnCore := (fakerDraw "replaceSymbols" st4).1
  let st5 := (fakerDraw "replaceSymbols" st4).2
  let isbn := isbnCore ++ "-" ++ toString (i + 1)
  let coverImageUrl := "https://picsum.photos/seed/" ++ isbn ++ "/200/300"
  let index := bookIndexFormula i pageNum
  let safeTitle := if title = "" then "Untitled" else title
  let safeAuthor := if author = "" then "Unknown Author" else author
  let safePublisher := if publisher = "" then "Unknown Publisher" else publisher
  (⟨env.uuid uuidCtr, index, isbn, safeTitle, safeAuthor, safePublisher,
      numLikes, bookReviews, coverImageUrl⟩,
    st5, randCtr + 2, uuidCtr + 1)

/-- The books loop: `count` books starting at loop index `i`. -/
def genBooksAux (env : BooksEnv) (avgLikes avgReviews pageNum : Option JNum) :
    ℕ → ℕ → FakerState → ℕ → ℕ → List Book
  | 0, _, _, _, _ => []
  | count + 1, i, st, randCtr, uuidCtr =>
    let r := genBook env avgLikes avgReviews pageNum i st randCtr uuidCtr
    r.1 :: genBooksAux env avgLikes avgReviews pageNum count (i + 1) r.2.1 r.2.2.1 r.2.2.2

/-- `Math.max(1, parseInt(page, 10))` from `server.js` line 125. -/
def booksPageNum (page : String) : Option JNum :=
  jsMax (some (JNum.ofInt 1)) (jsParseInt page)

/-- `Math.max(0, parseFloat(s))` from `server.js` lines 126-127. -/
def booksAvg (s : String) : Option JNum :=
  jsMax (some (JNum.ofInt 0)) (jsParseFloat s)

/-- The `/api/books` handler (`server.js` lines 115-186).  The five query
parameters are passed as the strings received (after Express's defaulting of
absent parameters to "default"/"1"/"en"/"0"/"0"). -/
def booksHandler (env : BooksEnv) (seed page region likes reviews : String) :
    List Book :=
  let pageNum := booksPageNum page
  let avgLikes := booksAvg likes
  let avgReviews := booksAvg reviews
  let combinedSeed := seed ++ "-" ++ jsNumToString pageNum
  let fakerLocale := getFakerLocale region
  let st : FakerState := ⟨fakerLocale, hashCode combinedSeed, 0⟩
  genBooksAux env avgLikes avgReviews pageNum 20 0 st 0 0

/-- The upstream oracle answers every text of the batch with a well-formed
payload carrying the non-empty translation `f x`. -/
def oracleOkOn (oracle : String → UpstreamResp) (f : String → String)
    (texts : List String) : Prop :=
  ∀ x ∈ texts, oracle x = .ok (f x) ∧ f x ≠ ""

/-- The translation the endpoint owes for input `x`: the cached value when
the key is present at request time, the freshly fetched value otherwise. -/
def expectedTranslation (cache : List CacheEntry) (now : ℕ) (source target : String)
    (f : String → String) (x : String) : String :=
  (cacheGet cache now (cacheKey source target x)).getD (f x)

/-- C4.  If `q`, `source` or `target` is absent from the body, `/api/translate`
answers 400 immediately: the cache state is returned unchanged and no upstream
call is issued. -/
theorem translate_missing_field_rejected_before_work
    (cache : List CacheEntry) (now : ℕ) (oracle : String → UpstreamResp)
    (req : TranslateReq)
    (h : req.q = none ∨ req.source = none ∨ req.target = none) :
    translateHandler cache now oracle req = ⟨.badRequest, cache, []⟩ := by
  rcases h with h | h | h <;>
    simp [translateHandler, truthyVal, truthyStr, h]

theorem translate_missing_field_rejected_before_work_witness :
    ((⟨none, some "en", some "fr"⟩ : TranslateReq).q = none ∨
        (⟨none, some "en", some "fr"⟩ : TranslateReq).source = none ∨
        (⟨none, some "en", some "fr"⟩ : TranslateReq).target = none) ∧
      translateHandler [⟨"en-fr-hi", "salut", 7⟩] 3 (fun _ => .malformed)
          ⟨none, some "en", some "fr"⟩ =
        ⟨.badRequest, [⟨"en-fr-hi", "salut", 7⟩], []⟩ :=
  ⟨Or.inl rfl,
    translate_missing_field_rejected_before_work
      [⟨"en-fr-hi", "salut", 7⟩] 3 (fun _ => .malformed)
      ⟨none, some "en", some "fr"⟩ (Or.inl rfl)⟩

/-! ### C2: malformed upstream payload aborts the whole batch (code bug) -/

/-- C2.  The claim (and the spec) say a malformed upstream payload for one
text degrades that slot to the original text and leaves the rest of the batch
intact.  The code instead executes `return text;` inside
`responses.map(response => ...)` (`server.js` line 89) where `text` is not in
scope, so the callback throws a `ReferenceError` and the whole request fails
with a 500: here a batch of two texts whose second upstream payload is
malformed produces `serverError`, with no echo and no translation for the
first text either. -/
theorem translate_malformed_payload_fails_whole_batch :
    translateHandler [] 0
        (fun t => if t = "world" then .malformed else .ok "hola")
        ⟨some (.arr ["hello", "world"]), some "en", some "es"⟩ =
      ⟨.serverError, [], ["hello", "world"]⟩ := by
  decide

/-! ### C10: truthiness-based validation on `/api/translate` -/

/-- C10.  The presence check `!q || !source || !target` uses JS truthiness:
a present-but-falsy field (`q = ""`, `q = 0`, `source = ""`) is rejected with
the 400 error exactly like an absent one, while the empty array `[]` (truthy
in JS) passes validation and yields an empty-array response with no cache
change and no upstream call. -/
theorem translate_truthiness_validation
    (cache : List CacheEntry) (now : ℕ) (oracle : String → UpstreamResp)
    (src tgt : String) (hs : src ≠ "") (ht : tgt ≠ "") :
    translateHandler cache now oracle ⟨some (.str ""), some src, some tgt⟩ =
        ⟨.badRequest, cache, []⟩ ∧
      translateHandler cache now oracle ⟨some (.num ⟨0, 1⟩), some src, some tgt⟩ =
        ⟨.badRequest, cache, []⟩ ∧
      (∀ qv : JsVal, translateHandler cache now oracle ⟨some qv, some "", some tgt⟩ =
        ⟨.badRequest, cache, []⟩) ∧
      translateHandler cache now oracle ⟨some (.arr []), some src, some tgt⟩ =
        ⟨.okList [], cache, []⟩ := by
  refine ⟨?_, ?_, ?_, ?_⟩
  · simp [translateHandler, truthyVal]
  · simp [translateHandler, truthyVal]
  · intro qv; simp [translateHandler, truthyStr]
  · simp [translateHandler, translateCore, truthyVal, truthyStr, hs, ht, extractTranslations,
      cacheGet]

theorem translate_truthiness_validation_witness :
    ("en" : String) ≠ "" ∧ ("fr" : String) ≠ "" ∧
      translateHandler [] 5 (fun _ => .ok "x") ⟨some (.arr []), some "en", some "fr"⟩ =
        ⟨.okList [], [], []⟩ :=
  ⟨by decide, by decide,
    (translate_truthiness_validation [] 5 (fun _ => .ok "x") "en" "fr"
      (by decide) (by decide)).2.2.2⟩

/-! ### C5: the cache key separator can collide -/

/-- Splitting a character list at a separator that occurs in neither prefix
is unambiguous. -/
theorem append_sep_inj (c : Char) :
    ∀ (l1 l2 r1 r2 : List Char), c ∉ l1 → c ∉ l2 →
      l1 ++ c :: r1 = l2 ++ c :: r2 → l1 = l2 ∧ r1 = r2 := by
  intro l1
  induction l1 with
  | nil =>
    intro l2 r1 r2 _ h2 h
    cases l2 with
    | nil => simpa using h
    | cons x xs =>
      simp only [List.nil_append, List.cons_append, List.cons.injEq] at h
      exact absurd (h.1 ▸ List.mem_cons_self x xs) h2
  | cons a as ih =>
    intro l2 r1 r2 h1 h2 h
    cases l2 with
    | nil =>
      simp only [List.cons_append, List.nil_append, List.cons.injEq] at h
      exact absurd (h.1 ▸ List.mem_cons_self a as) (h.1 ▸ h1)
    | cons x xs =>
      simp only [List.cons_append, List.cons.injEq] at h
      obtain ⟨rfl, h⟩ := h
      have htail := ih xs r1 r2 (fun hm => h1 (List.mem_cons_of_mem _ hm))
        (fun hm => h2 (List.mem_cons_of_mem _ hm)) h
      exact ⟨by rw [htail.1], htail.2⟩

/-- C5 (counterexample).  The key builder
`source ++ "-" ++ target ++ "-" ++ text` is not injective: the distinct
triples `("a-b", "c", "d")` and `("a", "b-c", "d")` produce the same key
`"a-b-c-d"`, so a translation cached for one of them is served for the
other. -/
theorem cacheKey_collision :
    cacheKey "a-b" "c" "d" = cacheKey "a" "b-c" "d" ∧
      ¬((("a-b", "c", "d") : String × String × String) = ("a", "b-c", "d")) := by
  decide

/-- C5 (amended).  The key builder is injective on triples whose source and
target tags contain no `'-'` (as every real language tag here does): two such
triples with the same key are equal, so a cached translation is never
returned for a different (source, target, text) combination within that
input space. -/
theorem cacheKey_inj (s1 t1 x1 s2 t2 x2 : String)
    (hs1 : '-' ∉ s1.data) (ht1 : '-' ∉ t1.data)
    (hs2 : '-' ∉ s2.data) (ht2 : '-' ∉ t2.data)
    (h : cacheKey s1 t1 x1 = cacheKey s2 t2 x2) :
    s1 = s2 ∧ t1 = t2 ∧ x1 = x2 := by
  have hd : s1.data ++ '-' :: (t1.data ++ '-' :: x1.data) =
      s2.data ++ '-' :: (t2.data ++ '-' :: x2.data) := by
    have hc := congrArg String.data h
    simp only [cacheKey, String.data_append] at hc
    simpa using hc
  obtain ⟨hs, hrest⟩ := append_sep_inj '-' _ _ _ _ hs1 hs2 hd
  obtain ⟨ht, hx⟩ := append_sep_inj '-' _ _ _ _ ht1 ht2 hrest
  refine ⟨?_, ?_, ?_⟩
  · cases s1; cases s2; exact congrArg String.mk hs
  · cases t1; cases t2; exact congrArg String.mk ht
  · cases x1; cases x2; exact congrArg String.mk hx

theorem cacheKey_inj_witness :
    ('-' ∉ ("en" : String).data) ∧ ('-' ∉ ("fr" : String).data) ∧
      (("en" : String) = "en" ∧ ("fr" : String) = "fr" ∧ ("hi" : String) = "hi") :=
  ⟨by decide, by decide,
    cacheKey_inj "en" "fr" "hi" "en" "fr" "hi"
      (by decide) (by decide) (by decide) (by decide) rfl⟩

/-! ### C3: order-preserving batch reassembly -/

theorem extractTranslations_all_ok (oracle : String → UpstreamResp)
    (f : String → String) :
    ∀ l : List String, (∀ x ∈ l, oracle x = .ok (f x) ∧ f x ≠ "") →
      extractTranslations (l.map oracle) = some (l.map f) := by
  intro l
  induction l with
  | nil => intro _; rfl
  | cons x xs ih =>
    intro h
    have hx := h x (List.mem_cons_self x xs)
    simp only [List.map_cons, hx.1, extractTranslations, if_neg hx.2,
      ih (fun y hy => h y (List.mem_cons_of_mem _ hy))]
    rfl

theorem foldl_set_length (pairs : List (ℕ × String)) :
    ∀ acc : List (Option String),
      (pairs.foldl (fun a q => a.set q.1 (some q.2)) acc).length = acc.length := by
  induction pairs with
  | nil => intro acc; rfl
  | cons q qs ih => intro acc; simp only [List.foldl_cons, ih, List.length_set]

theorem foldl_set_not_mem (pairs : List (ℕ × String)) :
    ∀ (acc : List (Option String)) (k : ℕ), (∀ q ∈ pairs, q.1 ≠ k) →
      (pairs.foldl (fun a q => a.set q.1 (some q.2)) acc)[k]? = acc[k]? := by
  induction pairs with
  | nil => intro acc k _; rfl
  | cons q qs ih =>
    intro acc k h
    simp only [List.foldl_cons]
    rw [ih _ k (fun q' hq' => h q' (List.mem_cons_of_mem _ hq')),
      List.getElem?_set, if_neg (h q (List.mem_cons_self q qs))]

theorem foldl_set_mem (pairs : List (ℕ × String)) :
    ∀ (acc : List (Option String)) (k : ℕ) (w : String),
      (pairs.map Prod.fst).Nodup → (k, w) ∈ pairs → k < acc.length →
      (pairs.foldl (fun a q => a.set q.1 (some q.2)) acc)[k]? = some (some w) := by
  induction pairs with
  | nil => intro acc k w _ hmem _; simp at hmem
  | cons q qs ih =>
    intro acc k w hnd hmem hk
    simp only [List.map_cons, List.nodup_cons] at hnd
    rcases List.mem_cons.mp hmem with hq | hmem'
    · subst hq
      simp only [List.foldl_cons]
      rw [foldl_set_not_mem qs _ k ?hne]
      case hne =>
        intro q' hq' hq'k
        have hmm : Prod.fst q' ∈ qs.map Prod.fst := List.mem_map_of_mem Prod.fst hq'
        rw [hq'k] at hmm
        exact hnd.1 hmm
      rw [List.getElem?_set, if_pos rfl, if_pos hk]
    · simp only [List.foldl_cons]
      exact ih _ k w hnd.2 hmem' (by rw [List.length_set]; exact hk)

theorem missPairs_eq (F : String → Option String) (texts : List String) :
    (((texts.map F).zip texts).enum.filter (fun p => p.2.1 = none)).map
        (fun p => (p.1, p.2.2)) =
      texts.enum.filter (fun p => F p.2 = none) := by
  have h1 : ∀ ts : List String, (ts.map F).zip ts = ts.map fun x => (F x, x) := by
    intro ts
    induction ts with
    | nil => rfl
    | cons a l ih => simp [ih]
  rw [h1, List.enum_map, List.filter_map, List.map_map]
  have hH : ((fun p : ℕ × Option String × String => (p.1, p.2.2)) ∘
      (Prod.map id fun x : String => (F x, x))) = id := by
    funext p
    cases p
    rfl
  have hQ : ((fun p : ℕ × Option String × String => decide (p.2.1 = none)) ∘
      (Prod.map id fun x : String => (F x, x))) =
      fun p : ℕ × String => decide (F p.2 = none) := by
    funext p
    cases p
    rfl
  rw [hH, hQ, List.map_id]

theorem overlay_eq (F : String → Option String) (f : String → String)
    (texts : List String) :
    ((texts.enum.filter (fun p => F p.2 = none)).map (fun p => (p.1, f p.2))).foldl
        (fun acc q => acc.set q.1 (some q.2)) (texts.map F) =
      texts.map (fun x => some ((F x).getD (f x))) := by
  apply List.ext_getElem?
  intro k
  by_cases hk : k < texts.length
  · have hgetk : texts[k]? = some texts[k] := List.getElem?_eq_getElem hk
    by_cases hc : F texts[k] = none
    · have hmem : (k, texts[k]) ∈ texts.enum.filter (fun p => F p.2 = none) := by
        rw [List.mem_filter]
        exact ⟨List.mk_mem_enum_iff_getElem?.mpr hgetk, by simp [hc]⟩
      have hmem2 : (k, f texts[k]) ∈ (texts.enum.filter (fun p => F p.2 = none)).map
          (fun p => (p.1, f p.2)) := List.mem_map_of_mem _ hmem
      have hnodup : (((texts.enum.filter (fun p => F p.2 = none)).map
          (fun p => (p.1, f p.2))).map Prod.fst).Nodup := by
        rw [List.map_map]
        have hfst : (Prod.fst ∘ fun p : ℕ × String => (p.1, f p.2)) =
            (Prod.fst : ℕ × String → ℕ) := by
          funext p
          rfl
        rw [hfst]
        exact List.Nodup.sublist ((List.filter_sublist _).map Prod.fst)
          (List.nodup_enum_map_fst _)
      rw [foldl_set_mem _ _ k (f texts[k]) hnodup hmem2 (by simpa using hk),
        List.getElem?_map, hgetk]
      simp [hc]
    · have hne : ∀ q ∈ (texts.enum.filter (fun p => F p.2 = none)).map
          (fun p => (p.1, f p.2)), q.1 ≠ k := by
        intro q hq hqk
        rcases List.mem_map.mp hq with ⟨p, hp, hpq⟩
        rcases List.mem_filter.mp hp with ⟨hpe, hpc⟩
        have hp1 : p.1 = k := by rw [← hpq] at hqk; exact hqk
        have hpget : texts[p.1]? = some p.2 := List.mem_enum_iff_getElem?.mp hpe
        rw [hp1, hgetk] at hpget
        have hp2 : p.2 = texts[k] := by
          injection hpget with hv
          exact hv.symm
        rw [hp2] at hpc
        simp only [decide_eq_true_eq] at hpc
        exact hc hpc
      rw [foldl_set_not_mem _ _ k hne, List.getElem?_map, List.getElem?_map, hgetk]
      rcases Option.ne_none_iff_exists.mp hc with ⟨w, hw⟩
      simp [← hw]
  · push_neg at hk
    rw [List.getElem?_eq_none (by rw [foldl_set_length, List.length_map]; exact hk),
      List.getElem?_eq_none (by rw [List.length_map]; exact hk)]

theorem missPairs_eq2 (g : String → String) (h : String → Option String)
    (texts : List String) :
    ((((texts.map g).map h).zip texts).enum.filter (fun p => p.2.1 = none)).map
        (fun p => (p.1, p.2.2)) =
      texts.enum.filter (fun p => h (g p.2) = none) := by
  rw [List.map_map]
  exact missPairs_eq (h ∘ g) texts

/-- The full reassembly fact for the pipeline: when every miss is answered
with a well-formed payload, the final translation slots are exactly, in input
order, the cached value for hits and the fetched value for misses. -/
theorem translateCore_all_ok (cache : List CacheEntry) (now : ℕ)
    (oracle : String → UpstreamResp) (source target : String)
    (texts : List String) (f : String → String)
    (hf : oracleOkOn oracle f texts) :
    (translateCore cache now oracle source target texts).1 =
      some (texts.map (fun x =>
        some (expectedTranslation cache now source target f x))) := by
  simp only [translateCore, missPairs_eq2, expectedTranslation]
  have hmem : ∀ x ∈ (texts.enum.filter
      (fun p => cacheGet cache now (cacheKey source target p.2) = none)).map
        (fun p => p.2), oracle x = .ok (f x) ∧ f x ≠ "" := by
    intro x hx
    rcases List.mem_map.mp hx with ⟨p, hp, hpx⟩
    have hpe := (List.mem_filter.mp hp).1
    have hpt : p.2 ∈ texts := by
      have h2 : p.2 ∈ texts.enum.map Prod.snd := List.mem_map_of_mem Prod.snd hpe
      rwa [List.enum_map_snd] at h2
    exact hpx ▸ hf p.2 hpt
  rw [extractTranslations_all_ok oracle f _ hmem]
  dsimp only
  simp only [List.map_map]
  rw [List.zip_map']
  exact congrArg some
    (overlay_eq (fun x => cacheGet cache now (cacheKey source target x)) f texts)

/-- C3.  For a batch request whose `q` is an array of N strings, when every
upstream fetch succeeds with a well-formed payload, the response is an array
of exactly N entries where entry k is the translation of input k (the cached
value for hits, the fetched value for misses), regardless of which indices
were cache hits and which were misses. -/
theorem translate_batch_order_preserved (cache : List CacheEntry) (now : ℕ)
    (oracle : String → UpstreamResp) (source target : String)
    (texts : List String) (f : String → String)
    (hs : source ≠ "") (ht : target ≠ "")
    (hf : oracleOkOn oracle f texts) :
    (translateHandler cache now oracle
          ⟨some (.arr texts), some source, some target⟩).result =
        .okList (texts.map (fun x =>
          some (expectedTranslation cache now source target f x))) ∧
      (texts.map (fun x =>
          some (expectedTranslation cache now source target f x))).length =
        texts.length := by
  have hcore := translateCore_all_ok cache now oracle source target texts f hf
  constructor
  · simp [translateHandler, truthyVal, truthyStr, hs, ht, hcore]
  · exact List.length_map _ _

theorem translate_batch_order_preserved_witness :
    ("en" : String) ≠ "" ∧ ("fr" : String) ≠ "" ∧
      oracleOkOn (fun x => .ok ("t" ++ x)) (fun x => "t" ++ x) ["a", "b"] ∧
      ((translateHandler [⟨"en-fr-a", "A", 100⟩] 0 (fun x => .ok ("t" ++ x))
            ⟨some (.arr ["a", "b"]), some "en", some "fr"⟩).result =
          .okList ((["a", "b"]).map (fun x =>
            some (expectedTranslation [⟨"en-fr-a", "A", 100⟩] 0 "en" "fr"
              (fun x => "t" ++ x) x))) ∧
        ((["a", "b"]).map (fun x =>
            some (expectedTranslation [⟨"en-fr-a", "A", 100⟩] 0 "en" "fr"
              (fun x => "t" ++ x) x))).length = ["a", "b"].length) :=
  ⟨by decide, by decide, by unfold oracleOkOn; decide,
    translate_batch_order_preserved [⟨"en-fr-a", "A", 100⟩] 0 (fun x => .ok ("t" ++ x))
      "en" "fr" ["a", "b"] (fun x => "t" ++ x) (by decide) (by decide)
      (by unfold oracleOkOn; decide)⟩

/-! ### C6: caching with the 24-hour TTL and second-call cache hits -/

/-- C6.  A successful translation request for a (source, target, text) tuple
that is not yet cached fetches it once, stores the fetched translation under
`cacheKey source target text` stamped with the standard 24-hour TTL
(`cacheSet` records expiry `now + 86400`), and a second identical request at
any time `now'` before that expiry finds the key present (a cache hit),
issues no upstream call, returns the same translation, and leaves the cache
unchanged. -/
theorem translate_caches_with_ttl (cache : List CacheEntry) (now : ℕ)
    (oracle : String → UpstreamResp) (s t text v : String)
    (hs : s ≠ "") (ht : t ≠ "") (htext : text ≠ "")
    (hmiss : cacheGet cache now (cacheKey s t text) = none)
    (hok : oracle text = .ok v) (hv : v ≠ "")
    (now' : ℕ) (hnow : now' < now + 86400) :
    translateHandler cache now oracle ⟨some (.str text), some s, some t⟩ =
        ⟨.okSingle (some v), cacheSet cache now (cacheKey s t text) v, [text]⟩ ∧
      cacheGet (cacheSet cache now (cacheKey s t text) v) now' (cacheKey s t text) =
        some v ∧
      translateHandler (cacheSet cache now (cacheKey s t text) v) now' oracle
          ⟨some (.str text), some s, some t⟩ =
        ⟨.okSingle (some v), cacheSet cache now (cacheKey s t text) v, []⟩ := by
  have hhit : cacheGet (cacheSet cache now (cacheKey s t text) v) now' (cacheKey s t text) =
      some v := by
    simp [cacheGet, cacheSet, List.find?, hnow]
  refine ⟨?_, hhit, ?_⟩
  · simp [translateHandler, translateCore, truthyVal, truthyStr, hs, ht, htext, jsValToString,
      List.enum, List.enumFrom, hmiss, hok, extractTranslations, hv]
  · simp [translateHandler, translateCore, truthyVal, truthyStr, hs, ht, htext, jsValToString,
      List.enum, List.enumFrom, hhit, extractTranslations]

theorem translate_caches_with_ttl_witness :
    ("en" : String) ≠ "" ∧ ("fr" : String) ≠ "" ∧ ("hello" : String) ≠ "" ∧
      cacheGet [] 0 (cacheKey "en" "fr" "hello") = none ∧
      (fun _ : String => UpstreamResp.ok "bonjour") "hello" = .ok "bonjour" ∧
      ("bonjour" : String) ≠ "" ∧ (86399 : ℕ) < 0 + 86400 ∧
      (translateHandler [] 0 (fun _ => .ok "bonjour")
            ⟨some (.str "hello"), some "en", some "fr"⟩ =
          ⟨.okSingle (some "bonjour"), cacheSet [] 0 (cacheKey "en" "fr" "hello") "bonjour",
            ["hello"]⟩ ∧
        cacheGet (cacheSet [] 0 (cacheKey "en" "fr" "hello") "bonjour") 86399
            (cacheKey "en" "fr" "hello") = some "bonjour" ∧
        translateHandler (cacheSet [] 0 (cacheKey "en" "fr" "hello") "bonjour") 86399
            (fun _ => .ok "bonjour") ⟨some (.str "hello"), some "en", some "fr"⟩ =
          ⟨.okSingle (some "bonjour"), cacheSet [] 0 (cacheKey "en" "fr" "hello") "bonjour",
            []⟩) :=
  ⟨by decide, by decide, by decide, by decide, rfl, by decide, by decide,
    translate_caches_with_ttl [] 0 (fun _ => .ok "bonjour") "en" "fr" "hello" "bonjour"
      (by decide) (by decide) (by decide) (by decide) rfl (by decide) 86399 (by decide)⟩

/-! ### C9: page size and the sequential index formula -/

theorem JNum.norm_d_pos (a : JNum) (h : 0 < a.d) : 0 < a.norm.d := by
  simp only [JNum.norm]
  split
  · exact h
  · next hg =>
    have hgpos : 0 < (Int.gcd a.n a.d : ℤ) :=
      lt_of_le_of_ne (Int.natCast_nonneg _) (Ne.symm hg)
    exact Int.ediv_pos_of_pos_of_dvd h (le_of_lt hgpos) Int.gcd_dvd_right

theorem JNum.toRat_norm (a : JNum) (hd : a.d ≠ 0) : a.norm.toRat = a.toRat := by
  simp only [JNum.norm]
  split
  · rfl
  · next hg =>
    simp only [JNum.toRat]
    have hdn : ((Int.gcd a.n a.d : ℤ)) ∣ a.n := Int.gcd_dvd_left
    have hdd : ((Int.gcd a.n a.d : ℤ)) ∣ a.d := Int.gcd_dvd_right
    rw [Int.cast_div_charZero hdn, Int.cast_div_charZero hdd]
    have hgQ : ((Int.gcd a.n a.d : ℤ) : ℚ) ≠ 0 := by exact_mod_cast hg
    have hdQ : ((a.d : ℤ) : ℚ) ≠ 0 := by exact_mod_cast hd
    field_simp
    rw [mul_assoc]
    exact mul_div_cancel_right₀ _ (mul_ne_zero hgQ hdQ)

theorem JNum.lt_iff_toRat (a b : JNum) (ha : 0 < a.d) (hb : 0 < b.d) :
    (a.lt b = true) ↔ a.toRat < b.toRat := by
  simp only [JNum.lt, JNum.toRat, decide_eq_true_eq]
  rw [div_lt_div_iff₀ (by exact_mod_cast ha) (by exact_mod_cast hb)]
  constructor <;> intro h <;> exact_mod_cast h

theorem JNum.toRat_sub (a b : JNum) (ha : a.d ≠ 0) (hb : b.d ≠ 0) :
    (a.sub b).toRat = a.toRat - b.toRat := by
  simp only [JNum.sub]
  rw [JNum.toRat_norm _ (by simpa using mul_ne_zero ha hb)]
  simp only [JNum.toRat]
  have haQ : ((a.d : ℤ) : ℚ) ≠ 0 := by exact_mod_cast ha
  have hbQ : ((b.d : ℤ) : ℚ) ≠ 0 := by exact_mod_cast hb
  push_cast
  field_simp
  ring

theorem JNum.sub_d_pos (a b : JNum) (ha : 0 < a.d) (hb : 0 < b.d) :
    0 < (a.sub b).d := by
  simp only [JNum.sub]
  exact JNum.norm_d_pos _ (by simpa using mul_pos ha hb)

theorem JNum.floorInt_eq (a : JNum) (h : 0 < a.d) : a.floorInt = ⌊a.toRat⌋ := by
  have hcast : ((a.d : ℤ) : ℚ) = ((a.d.toNat : ℕ) : ℚ) := by
    rw [← Int.toNat_of_nonneg (le_of_lt h)]
    push_cast
    rfl
  show a.n.fdiv a.d = ⌊(a.n : ℚ) / (a.d : ℚ)⌋
  rw [Int.fdiv_eq_ediv _ (le_of_lt h), hcast, Rat.floor_intCast_div_natCast,
    Int.toNat_of_nonneg (le_of_lt h)]

theorem JNum.floor_toRat (a : JNum) (h : 0 < a.d) :
    a.floor.toRat = (⌊a.toRat⌋ : ℚ) := by
  rw [← JNum.floorInt_eq a h]
  show ((a.floorInt : ℤ) : ℚ) / (((1 : ℤ) : ℚ)) = ((a.floorInt : ℤ) : ℚ)
  norm_num

theorem JNum.lt_zero_false (r : JNum) (h : 0 ≤ r.n) : r.lt ⟨0, 1⟩ = false := by
  simp only [JNum.lt, decide_eq_false_iff_not, mul_one, zero_mul, not_lt]
  exact h

theorem genBooksAux_likes (env : BooksEnv) (aL aR pN : Option JNum) (x : Option JNum)
    (hx : ∀ k, fractionalValue aL (env.rand k) = x) :
    ∀ (count i : ℕ) (st : FakerState) (rc uc : ℕ),
      ∀ bk ∈ genBooksAux env aL aR pN count i st rc uc, bk.likes = x := by
  intro count
  induction count with
  | zero => intro i st rc uc bk hbk; simp [genBooksAux] at hbk
  | succ c ih =>
    intro i st rc uc bk hbk
    rw [genBooksAux] at hbk
    rcases List.mem_cons.mp hbk with h | h
    · rw [h]; exact hx rc
    · exact ih _ _ _ _ bk h

theorem genBooksAux_reviews_nil (env : BooksEnv) (aL aR pN : Option JNum)
    (hx : ∀ k, jsLoopCount (fractionalValue aR (env.rand k)) = 0) :
    ∀ (count i : ℕ) (st : FakerState) (rc uc : ℕ),
      ∀ bk ∈ genBooksAux env aL aR pN count i st rc uc, bk.reviews = [] := by
  intro count
  induction count with
  | zero => intro i st rc uc bk hbk; simp [genBooksAux] at hbk
  | succ c ih =>
    intro i st rc uc bk hbk
    rw [genBooksAux] at hbk
    rcases List.mem_cons.mp hbk with h | h
    · rw [h]
      show (genReviews _ (jsLoopCount (fractionalValue aR (env.rand (rc + 1))))).1 = []
      rw [hx (rc + 1)]
      rfl
    · exact ih _ _ _ _ bk h

/-- C8.  The fractional-count policy of `fractionalValue`: for a
non-negative average `A` and a `Math.random()` draw `r`, the produced count
is `⌊A⌋`, or `⌊A⌋ + 1` exactly when `r < A - ⌊A⌋` (so the extra unit occurs
with probability equal to the fractional part of `A` under a uniform draw);
moreover with a requested likes average of "2.0" every generated book has
exactly 2 likes, and with a requested reviews average of "0" every generated
book has an empty review list. -/
theorem fractional_count_policy :
    (∀ (A r : JNum), 0 < A.d → 0 ≤ A.n → 0 < r.d → 0 ≤ r.n →
      ((fractionalValue (some A) r = some A.floor ∧
          ¬ r.toRat < A.toRat - (⌊A.toRat⌋ : ℚ)) ∨
        (fractionalValue (some A) r = some (A.floor.add (JNum.ofInt 1)) ∧
          r.toRat < A.toRat - (⌊A.toRat⌋ : ℚ))) ∧
      A.floor.toRat = (⌊A.toRat⌋ : ℚ)) ∧
    (∀ env : BooksEnv, randValid env → ∀ seed page region reviews : String,
      ∀ bk ∈ booksHandler env seed page region "2.0" reviews,
        bk.likes = some (⟨2, 1⟩ : JNum)) ∧
    (∀ env : BooksEnv, randValid env → ∀ seed page region likes : String,
      ∀ bk ∈ booksHandler env seed page region likes "0",
        bk.reviews = ([] : List Review)) := by
  refine ⟨?_, ?_, ?_⟩
  · intro A r hAd hAn hrd hrn
    have hfd : (0 : ℤ) < (A.floor).d := one_pos
    have hsubd : 0 < (A.sub A.floor).d := JNum.sub_d_pos A A.floor hAd hfd
    have hsubrat : (A.sub A.floor).toRat = A.toRat - (⌊A.toRat⌋ : ℚ) := by
      rw [JNum.toRat_sub A A.floor (ne_of_gt hAd) (ne_of_gt hfd), JNum.floor_toRat A hAd]
    have hiff : (r.lt (A.sub A.floor) = true) ↔ r.toRat < A.toRat - (⌊A.toRat⌋ : ℚ) := by
      rw [JNum.lt_iff_toRat r _ hrd hsubd, hsubrat]
    refine ⟨?_, JNum.floor_toRat A hAd⟩
    by_cases hc : r.lt (A.sub A.floor) = true
    · exact Or.inr ⟨by simp only [fractionalValue, jsFloor, jsSub, jsLt, jsAdd, hc, if_true],
        hiff.mp hc⟩
    · refine Or.inl ⟨?_, fun hcon => hc (hiff.mpr hcon)⟩
      rw [Bool.not_eq_true] at hc
      simp [fractionalValue, jsFloor, jsSub, jsLt, jsAdd, hc]
  · intro env hrv seed page region reviews bk hbk
    have havg : booksAvg "2.0" = some (⟨2, 1⟩ : JNum) := by decide
    have hfv : ∀ k, fractionalValue (booksAvg "2.0") (env.rand k) = some (⟨2, 1⟩ : JNum) := by
      intro k
      rw [havg]
      have h12 : (⟨2, 1⟩ : JNum).sub (⟨2, 1⟩ : JNum).floor = ⟨0, 1⟩ := by decide
      have hlt := JNum.lt_zero_false (env.rand k) (hrv k).2.1
      simp only [fractionalValue, jsFloor, jsSub, jsLt, jsAdd, h12, hlt]
      decide
    exact genBooksAux_likes env (booksAvg "2.0") (booksAvg reviews) (booksPageNum page)
      (some ⟨2, 1⟩) hfv 20 0 _ 0 0 bk (by simpa [booksHandler] using hbk)
  · intro env hrv seed page region likes bk hbk
    have havg : booksAvg "0" = some (⟨0, 1⟩ : JNum) := by decide
    have hlc : ∀ k, jsLoopCount (fractionalValue (booksAvg "0") (env.rand k)) = 0 := by
      intro k
      rw [havg]
      have h12 : (⟨0, 1⟩ : JNum).sub (⟨0, 1⟩ : JNum).floor = ⟨0, 1⟩ := by decide
      have hlt := JNum.lt_zero_false (env.rand k) (hrv k).2.1
      simp only [fractionalValue, jsFloor, jsSub, jsLt, jsAdd, h12, hlt]
      decide
    exact genBooksAux_reviews_nil env (booksAvg likes) (booksAvg "0") (booksPageNum page)
      hlc 20 0 _ 0 0 bk (by simpa [booksHandler] using hbk)

theorem fractional_count_policy_witness :
    (0 : ℤ) < 10 ∧ (0 : ℤ) ≤ 23 ∧ (0 : ℤ) < 2 ∧ (0 : ℤ) ≤ 1 ∧
      ((fractionalValue (some ⟨23, 10⟩) ⟨1, 2⟩ = some (⟨23, 10⟩ : JNum).floor ∧
          ¬ (⟨1, 2⟩ : JNum).toRat <
            (⟨23, 10⟩ : JNum).toRat - (⌊(⟨23, 10⟩ : JNum).toRat⌋ : ℚ)) ∨
        (fractionalValue (some ⟨23, 10⟩) ⟨1, 2⟩ =
            some ((⟨23, 10⟩ : JNum).floor.add (JNum.ofInt 1)) ∧
          (⟨1, 2⟩ : JNum).toRat <
            (⟨23, 10⟩ : JNum).toRat - (⌊(⟨23, 10⟩ : JNum).toRat⌋ : ℚ))) ∧
      (⟨23, 10⟩ : JNum).floor.toRat = (⌊(⟨23, 10⟩ : JNum).toRat⌋ : ℚ) :=
  ⟨by decide, by decide, by decide, by decide,
    fractional_count_policy.1 ⟨23, 10⟩ ⟨1, 2⟩ (by decide) (by decide) (by decide) (by decide)⟩

/-! ### C1: determinism of the generated text fields across calls -/

